import Mathlib

/-!
Verification of the skani-vMAG pipeline (similarity filtering, edge-weight
computation, cluster loading and per-cluster ANI summarization).

Numeric columns of the similarity table (ANI and both aligned fractions) are
modelled as rationals. Each definition is a shallow embedding of the
corresponding Python function, named after it where possible.
-/

namespace VSkani

/-- One row of the skani similarity table (`skani dist` output read by
`SkaniPreprocessor.read_data` and `ClusterSummarizer.__init__`). -/
structure SimRow where
  Ref_name : String
  Query_name : String
  ANI : ℚ
  Align_fraction_ref : ℚ
  Align_fraction_query : ℚ
deriving DecidableEq, Repr

/-- The row predicate of `SkaniPreprocessor._preprocess`:
`(Ref_name != Query_name) & (ANI >= min_ani) &
 ((Align_fraction_ref >= min_af) | (Align_fraction_query >= min_af))`. -/
def keepRow (min_ani min_af : ℚ) (r : SimRow) : Bool :=
  decide (r.Ref_name ≠ r.Query_name) && decide (min_ani ≤ r.ANI) &&
    (decide (min_af ≤ r.Align_fraction_ref) || decide (min_af ≤ r.Align_fraction_query))

/-- `SkaniPreprocessor._preprocess`: `self.data.filter(...)`. -/
def preprocess (min_ani min_af : ℚ) (data : List SimRow) : List SimRow :=
  data.filter (keepRow min_ani min_af)

/-- `pl.min(["Align_fraction_query", "Align_fraction_ref"]).alias("AF")`
in `SkaniPreprocessor._create_edge_weights`. -/
def directional_min_af (r : SimRow) : ℚ :=
  min r.Align_fraction_query r.Align_fraction_ref

/-- `scale = 100**2` in `SkaniPreprocessor._create_edge_weights`. -/
def scale : ℚ := 100 ^ 2

/-- The `weight` column of `SkaniPreprocessor._create_edge_weights`:
`pl.col("AF") * pl.col("ANI") / scale`. -/
def edge_weight (r : SimRow) : ℚ :=
  directional_min_af r * r.ANI / scale

/-- `check_range` from `vskani/skani/_cli.py`: raises unless
`minval <= value <= maxval`. -/
def check_range (value minval maxval : ℚ) (name : String) : Except String Unit :=
  if minval ≤ value ∧ value ≤ maxval then Except.ok ()
  else Except.error (name ++ " not in inclusive range")

/-- The fields of `PreprocessingArgs` after `__post_init__` has run. -/
structure PreprocessingArgs where
  min_ani : ℚ
  min_cov : ℚ
deriving DecidableEq, Repr

/-- `PreprocessingArgs.__post_init__`: validate both thresholds against the
inclusive range `[0, 1]`, then rescale each by `* 100.0`. -/
def postInit (min_ani min_cov : ℚ) : Except String PreprocessingArgs :=
  match check_range min_ani 0 1 "--min-ani" with
  | Except.error e => Except.error e
  | Except.ok _ =>
    match check_range min_cov 0 1 "--min-cov" with
    | Except.error e => Except.error e
    | Except.ok _ => Except.ok ⟨min_ani * 100, min_cov * 100⟩

/-- The concatenation loop at the end of `vskani/skani/vskani.py:main`:
the first result file is copied in full, and from every later file one
leading line is skipped (`fsrc.readline()`) before copying the rest.
Files are modelled as lists of lines. -/
def concatResults (files : List (List String)) : List String :=
  match files with
  | [] => []
  | f :: rest => f ++ (rest.map (fun g => g.drop 1)).flatten

/-- The external binaries the pipeline invokes. -/
inductive Tool where
  | skani
  | mcxload
  | mcl
deriving DecidableEq, Repr

/-- The startup validation in `vskani/skani/vskani.py:main`: a missing input
is fatal, then `which("skani")` is consulted; no other binary is checked
before external commands run. -/
def startupCheck (inputSupplied : Bool) (onPath : Tool → Bool) : Except String Unit :=
  if inputSupplied = false then
    Except.error "At least one of -c and -d flags need to be supplied"
  else if onPath Tool.skani = false then
    Except.error "Cannot find path to skani"
  else
    Except.ok ()

/-- Order in which the full pipeline invokes external binaries
(`main.py` case all: skani runs, then `mcxload`, then `mcl`). -/
def pipelineTools : List Tool := [Tool.skani, Tool.mcxload, Tool.mcl]

/-- External commands that execute successfully before the first missing
binary aborts the pipeline (a subprocess for a missing binary fails at its
own invocation, not earlier). -/
def executedBeforeFailure (onPath : Tool → Bool) : List Tool :=
  pipelineTools.takeWhile onPath

/-- An execution path holding `skani` and `mcxload` but not `mcl`. -/
def missingMcl : Tool → Bool :=
  fun t => decide (t ≠ Tool.mcl)

/-- Files produced by the full pipeline. -/
inductive PipelineFile where
  | skani_output
  | processed_output
  | mcl_output
  | summary_output
deriving DecidableEq, Repr

/-- Columns written by `SkaniPreprocessor.save`
(`select_cols = ["Ref_name", "Query_name", self.edge_weight_name]`,
written with `has_header=False`). -/
def savedColumns : List String := ["Ref_name", "Query_name", "weight"]

/-- Columns of the raw `skani dist` table consumed by the preprocessor. -/
def skaniOutputColumns : List String :=
  ["Ref_name", "Query_name", "ANI", "Align_fraction_ref", "Align_fraction_query"]

/-- Column layout of each pipeline file. -/
def fileColumns : PipelineFile → List String :=
  fun f =>
    match f with
    | PipelineFile.skani_output => skaniOutputColumns
    | PipelineFile.processed_output => savedColumns
    | PipelineFile.mcl_output => []
    | PipelineFile.summary_output => ["cluster", "avg_ANI"]

/-- The file passed as `skani_file` to `ClusterSummarizer` in the `all`
branch of `main.py:main` (`skani_file=args.skani.io.processed_output`). -/
def allCommandSummarizerInput : PipelineFile := PipelineFile.processed_output

/-- The column `ClusterSummarizer.average_ANI_per_cluster` aggregates
(`self.pl.col("ANI").mean()`). -/
def summarizerRequiredColumn : String := "ANI"

/-- Python `str.rstrip()`: remove trailing whitespace characters. -/
def rstrip (s : String) : String :=
  ⟨(s.data.reverse.dropWhile Char.isWhitespace).reverse⟩

/-- `line.rstrip().split("\t")` from `iload` in `vskani/mcl/utils.py`. -/
def splitMembers (line : String) : List String :=
  ((rstrip line).data.splitOn '\t').map (fun cs => (⟨cs⟩ : String))

/-- `iload` from `vskani/mcl/utils.py`: one cluster per line, tab-delimited;
yield only clusters with at least `min_cluster_size` members. -/
def iload (lines : List String) (min_cluster_size : Nat) : List (List String) :=
  (lines.map splitMembers).filter (fun c => decide (min_cluster_size ≤ c.length))

/-- One step of the dict comprehension in
`ClusterSummarizer._map_members_to_cluster_ids`: insert every member of one
cluster with cluster id `i`, overwriting earlier entries. -/
def updOne (m : String → Option Nat) (i : Nat) (c : List String) : String → Option Nat :=
  c.foldl (fun acc member => fun s => if s = member then some i else acc s) m

/-- Fold the enumerated clusters through `updOne`, in enumeration order. -/
def memberMapAux (m : String → Option Nat) (pairs : List (Nat × List String)) :
    String → Option Nat :=
  pairs.foldl (fun acc p => updOne acc p.1 p.2) m

/-- `ClusterSummarizer._map_members_to_cluster_ids`: the dict comprehension
`{member: cluster_id for cluster_id, cluster in enumerate(loader) for member in cluster}`
as a lookup function. -/
def memberMap (clusters : List (List String)) : String → Option Nat :=
  memberMapAux (fun _ => none) clusters.enum

/-- Index of the last cluster (in enumeration order) containing a name. -/
def lastOcc (clusters : List (List String)) (s : String) : Option Nat :=
  match clusters with
  | [] => none
  | c :: cs =>
    match lastOcc cs s with
    | some j => some (j + 1)
    | none => if s ∈ c then some 0 else none

/-- `ClusterSummarizer._merge_cluster_ids`: inner-join the similarity rows
with the name-to-cluster mapping on `Ref_name` and on `Query_name` (rows
whose endpoint has no cluster id are dropped by the inner join), then keep
rows with `Ref_cluster == Query_cluster`. Each surviving row is returned
with its (shared) cluster id. -/
def merge_cluster_ids (ani_data : List SimRow) (m : String → Option Nat) :
    List (SimRow × Nat) :=
  ani_data.filterMap (fun r =>
    match m r.Ref_name, m r.Query_name with
    | some rc, some qc => if rc = qc then some (r, rc) else none
    | _, _ => none)

/-- Arithmetic mean of a list of rationals (`pl.col("ANI").mean()`). -/
def meanQ (xs : List ℚ) : ℚ :=
  xs.sum / xs.length

/-- ANI values of the joined rows belonging to one cluster id
(the polars group of `groupby("Ref_cluster")`). -/
def clusterGroup (joined : List (SimRow × Nat)) (c : Nat) : List ℚ :=
  (joined.filter (fun p => decide (p.2 = c))).map (fun p => p.1.ANI)

/-- `ClusterSummarizer.average_ANI_per_cluster`: group the joined rows by
cluster id, average `ANI` per group, and sort ascending by the average. -/
def average_ANI_per_cluster (joined : List (SimRow × Nat)) : List (Nat × ℚ) :=
  List.insertionSort (fun a b => a.2 ≤ b.2)
    (((joined.map (fun p => p.2)).dedup).map (fun c => (c, meanQ (clusterGroup joined c))))

/-- Cluster ids appearing in the summary output. -/
def summaryClusterIds (joined : List (SimRow × Nat)) : List Nat :=
  (average_ANI_per_cluster joined).map (fun q => q.1)

/-! ## Theorems -/

/-- Claim C1: a row of the similarity table appears in the preprocessor's
filtered data if and only if its reference name differs from its query name,
its identity is at least `min_ani`, and at least one of its two aligned
fractions is at least `min_af`; hence every row of the output satisfies all
three conditions. -/
theorem C1_preprocess_filter (min_ani min_af : ℚ) (data : List SimRow) (r : SimRow) :
    r ∈ preprocess min_ani min_af data ↔
      r ∈ data ∧ r.Ref_name ≠ r.Query_name ∧ min_ani ≤ r.ANI ∧
        (min_af ≤ r.Align_fraction_ref ∨ min_af ≤ r.Align_fraction_query) := by
  simp [preprocess, keepRow, List.mem_filter, and_assoc]

/-- Claim C2: the edge weight of every row equals
`min(Align_fraction_ref, Align_fraction_query) * ANI / 10000`, and whenever
the identity and both aligned fractions lie in `[0, 100]` the weight lies in
`[0, 1]`. -/
theorem C2_edge_weight (r : SimRow) :
    edge_weight r = min r.Align_fraction_ref r.Align_fraction_query * r.ANI / 10000 ∧
    (0 ≤ r.ANI → r.ANI ≤ 100 →
     0 ≤ r.Align_fraction_ref → r.Align_fraction_ref ≤ 100 →
     0 ≤ r.Align_fraction_query → r.Align_fraction_query ≤ 100 →
     0 ≤ edge_weight r ∧ edge_weight r ≤ 1) := by
  constructor
  · unfold edge_weight directional_min_af scale
    rw [min_comm]
    norm_num
  · intro h1 h2 h3 h4 h5 h6
    unfold edge_weight directional_min_af scale
    constructor
    · positivity
    · rw [div_le_one (by norm_num)]
      have hm1 : min r.Align_fraction_query r.Align_fraction_ref ≤ 100 :=
        le_trans (min_le_left _ _) h6
      have hm0 : 0 ≤ min r.Align_fraction_query r.Align_fraction_ref :=
        le_min h5 h3
      nlinarith

/-- Witness: `C2_edge_weight` evaluated at a concrete row with `ANI = 95`,
aligned fractions `80` and `60`. -/
theorem C2_edge_weight_witness :
    edge_weight ⟨"a", "b", 95, 80, 60⟩ = min (80:ℚ) 60 * 95 / 10000 ∧
      (0 ≤ edge_weight ⟨"a", "b", 95, 80, 60⟩ ∧ edge_weight ⟨"a", "b", 95, 80, 60⟩ ≤ 1) :=
  ⟨(C2_edge_weight ⟨"a", "b", 95, 80, 60⟩).1,
   (C2_edge_weight ⟨"a", "b", 95, 80, 60⟩).2 (by norm_num) (by norm_num) (by norm_num)
     (by norm_num) (by norm_num) (by norm_num)⟩

/-- Claim C3 (code evaluation): in the `all` branch of the pipeline the
summarizer's input file is the processed edge list, not the raw similarity
table, and its column layout lacks the `ANI` column the summarizer
aggregates, while the raw skani output does contain it. -/
theorem C3_pipeline_summarizer_input :
    allCommandSummarizerInput = PipelineFile.processed_output ∧
      allCommandSummarizerInput ≠ PipelineFile.skani_output ∧
      summarizerRequiredColumn ∉ fileColumns allCommandSummarizerInput ∧
      summarizerRequiredColumn ∈ fileColumns PipelineFile.skani_output := by
  decide

/-- Claim C8: `PreprocessingArgs.__post_init__` succeeds exactly when both
thresholds lie in the inclusive range `[0, 1]`; out-of-range values raise
before any processing runs. -/
theorem C8_threshold_validation (a c : ℚ) :
    ((postInit a c).isOk = true ↔ (0 ≤ a ∧ a ≤ 1) ∧ (0 ≤ c ∧ c ≤ 1)) ∧
    ((check_range a 0 1 "--min-ani").isOk = true ↔ 0 ≤ a ∧ a ≤ 1) := by
  constructor
  · unfold postInit check_range
    by_cases h1 : 0 ≤ a ∧ a ≤ 1 <;> by_cases h2 : 0 ≤ c ∧ c ≤ 1 <;>
      simp [h1, h2, Except.isOk, Except.toBool]
  · unfold check_range
    by_cases h1 : 0 ≤ a ∧ a ≤ 1 <;> simp [h1, Except.isOk, Except.toBool]

/-- Claim C10: for thresholds accepted by validation, the stored values are
one hundred times the CLI values. -/
theorem C10_threshold_scaling (a c : ℚ)
    (h1 : 0 ≤ a) (h2 : a ≤ 1) (h3 : 0 ≤ c) (h4 : c ≤ 1) :
    postInit a c = Except.ok ⟨100 * a, 100 * c⟩ := by
  unfold postInit check_range
  simp [h1, h2, h3, h4, mul_comm]

/-- Witness: `C10_threshold_scaling` at the default CLI values
`--min-ani 0.95`, `--min-cov 0.5`. -/
theorem C10_threshold_scaling_witness :
    (0:ℚ) ≤ 19/20 ∧ postInit (19/20) (1/2) = Except.ok ⟨100 * (19/20), 100 * (1/2)⟩ :=
  ⟨by norm_num,
   C10_threshold_scaling (19/20) (1/2) (by norm_num) (by norm_num) (by norm_num) (by norm_num)⟩

/-- Claim C9 (counterexample): with the clustering binary `mcl` absent from
the path but `skani` present, the startup check still succeeds and external
commands (skani, mcxload) execute before the failure, refuting the claim
that any missing required binary is a fatal error at startup before any
external command runs. -/
theorem C9_missing_mcl_not_fatal_at_startup :
    missingMcl Tool.mcl = false ∧
      (startupCheck true missingMcl).isOk = true ∧
      executedBeforeFailure missingMcl = [Tool.skani, Tool.mcxload] := by
  refine ⟨by decide, ?_, by decide⟩
  unfold startupCheck missingMcl
  simp [Except.isOk, Except.toBool]

/-- Claim C9 (amended): startup fails exactly when input is missing or the
pairwise-similarity binary `skani` is absent; a missing clustering binary is
not detected at startup, and when `mcxload` is absent the skani command has
already executed before the pipeline fails. -/
theorem C9_startup_checks_only_skani (inputSupplied : Bool) (onPath : Tool → Bool) :
    (startupCheck inputSupplied onPath = Except.ok () ↔
      inputSupplied = true ∧ onPath Tool.skani = true) ∧
    (onPath Tool.skani = true → onPath Tool.mcxload = false →
      executedBeforeFailure onPath = [Tool.skani]) := by
  constructor
  · unfold startupCheck
    cases inputSupplied <;> cases h : onPath Tool.skani <;> simp [h]
  · intro h1 h2
    unfold executedBeforeFailure pipelineTools
    simp [List.takeWhile, h1, h2]

/-- Witness: `C9_startup_checks_only_skani` at a path holding only `skani`. -/
theorem C9_startup_checks_only_skani_witness :
    executedBeforeFailure (fun t => decide (t = Tool.skani)) = [Tool.skani] :=
  (C9_startup_checks_only_skani true (fun t => decide (t = Tool.skani))).2
    (by decide) (by decide)

/-- Skipping one leading line from each of a list of nonempty files loses
exactly one line per file. -/
theorem flatten_drop_one_length (rest : List (List String))
    (hne : ∀ g ∈ rest, g ≠ []) :
    ((rest.map (fun g => g.drop 1)).flatten).length + rest.length
      = (rest.map List.length).sum := by
  induction rest with
  | nil => simp
  | cons g gs ih =>
    have hg : g ≠ [] := hne g (by simp)
    have hgs : ∀ x ∈ gs, x ≠ [] := fun x hx => hne x (by simp [hx])
    have hlen : 1 ≤ g.length := List.length_pos.mpr hg
    have hih := ih hgs
    simp only [List.map_cons, List.flatten_cons, List.length_append, List.sum_cons,
      List.length_drop, List.length_cons]
    omega

/-- After dropping the leading line of every file, no occurrence of the
header remains when the header only ever occurs as a leading line. -/
theorem count_flatten_drop_one (rest : List (List String)) (header : String)
    (htail : ∀ g ∈ rest, ∀ l ∈ g.drop 1, l ≠ header) :
    ((rest.map (fun g => g.drop 1)).flatten).count header = 0 := by
  induction rest with
  | nil => simp
  | cons g gs ih =>
    have hgs : ∀ x ∈ gs, ∀ l ∈ x.drop 1, l ≠ header :=
      fun x hx => htail x (by simp [hx])
    have hg : (g.drop 1).count header = 0 :=
      List.count_eq_zero.mpr (fun hmem => htail g (by simp) header hmem rfl)
    simp only [List.map_cons, List.flatten_cons, List.count_append, hg, ih hgs]

/-- Claim C7: when concatenating the per-mode result files, the first file
is copied whole and one leading line is skipped from each later file, so
the output's line count is the sum of the files' line counts minus one per
file after the first, and the header occurs exactly once in the output. -/
theorem C7_concat (f : List String) (rest : List (List String)) (header : String)
    (hne : ∀ g ∈ rest, g ≠ [])
    (hhead : ∀ g ∈ f :: rest, g.head? = some header)
    (htail : ∀ g ∈ f :: rest, ∀ l ∈ g.drop 1, l ≠ header) :
    (concatResults (f :: rest)).length
        = ((f :: rest).map List.length).sum - rest.length ∧
      (concatResults (f :: rest)).count header = 1 := by
  constructor
  · have h := flatten_drop_one_length rest hne
    simp only [concatResults, List.length_append, List.map_cons, List.sum_cons]
    omega
  · have hrest : ((rest.map (fun g => g.drop 1)).flatten).count header = 0 :=
      count_flatten_drop_one rest header (fun g hg => htail g (by simp [hg]))
    have hf : f.count header = 1 := by
      cases f with
      | nil => simp at hhead
      | cons a t =>
        have ha : a = header := by
          have := hhead (a :: t) (by simp)
          simpa using this
        have ht : t.count header = 0 := by
          refine List.count_eq_zero.mpr (fun hmem => ?_)
          exact htail (a :: t) (by simp) header (by simpa using hmem) rfl
        subst ha
        simp [List.count_cons, ht]
    simp only [concatResults, List.count_append, hf, hrest]

/-- Witness: `C7_concat` on three concrete two-, two- and one-line files
sharing the header `H`. -/
theorem C7_concat_witness :
    (concatResults [["H", "r1"], ["H", "r2"], ["H"]]).length
        = (([["H", "r1"], ["H", "r2"], ["H"]] : List (List String)).map List.length).sum
            - ([["H", "r2"], ["H"]] : List (List String)).length ∧
      (concatResults [["H", "r1"], ["H", "r2"], ["H"]]).count "H" = 1 :=
  C7_concat ["H", "r1"] [["H", "r2"], ["H"]] "H" (by decide) (by decide) (by decide)

/-- `updOne` maps every member of the inserted cluster to the new id and
leaves all other names unchanged. -/
theorem updOne_eq (c : List String) (m : String → Option Nat) (i : Nat) (s : String) :
    updOne m i c s = if s ∈ c then some i else m s := by
  induction c generalizing m with
  | nil => simp [updOne]
  | cons x xs ih =>
    show updOne (fun t => if t = x then some i else m t) i xs s = _
    rw [ih]
    by_cases hxs : s ∈ xs
    · simp [hxs]
    · by_cases hx : s = x <;> simp [hxs, hx]

/-- Folding the enumerated clusters starting from index `n` yields the last
occurrence (shifted by `n`) when the name appears, and the initial mapping
otherwise. -/
theorem memberMapAux_enumFrom (cs : List (List String)) (n : Nat)
    (m : String → Option Nat) (s : String) :
    memberMapAux m (List.enumFrom n cs) s
      = match lastOcc cs s with
        | some j => some (n + j)
        | none => m s := by
  induction cs generalizing n m with
  | nil => simp [memberMapAux, lastOcc]
  | cons c cs ih =>
    show memberMapAux (updOne m n c) (List.enumFrom (n + 1) cs) s = _
    rw [ih]
    cases h : lastOcc cs s with
    | some j =>
      unfold lastOcc
      rw [h]
      simp
      omega
    | none =>
      rw [updOne_eq]
      unfold lastOcc
      rw [h]
      by_cases hc : s ∈ c <;> simp [hc]

/-- The dict comprehension agrees with the last-occurrence function. -/
theorem memberMap_eq_lastOcc (clusters : List (List String)) (s : String) :
    memberMap clusters s = lastOcc clusters s := by
  show memberMapAux (fun _ => none) (List.enumFrom 0 clusters) s = _
  rw [memberMapAux_enumFrom]
  cases h : lastOcc clusters s <;> simp

/-- An in-bounds `getD` is a member of the list. -/
theorem getD_mem_of_lt (l : List (List String)) (n : Nat) (h : n < l.length) :
    l.getD n [] ∈ l := by
  rw [List.getD_eq_getElem l [] h]
  exact List.getElem_mem h

/-- A last occurrence is a genuine occurrence. -/
theorem lastOcc_mem (cs : List (List String)) (s : String) (j : Nat)
    (h : lastOcc cs s = some j) : j < cs.length ∧ s ∈ cs.getD j [] := by
  induction cs generalizing j with
  | nil => simp [lastOcc] at h
  | cons c cs ih =>
    unfold lastOcc at h
    cases h2 : lastOcc cs s with
    | some j0 =>
      rw [h2] at h
      simp only [Option.some.injEq] at h
      subst h
      have hprev := ih j0 h2
      refine ⟨by simpa using Nat.succ_lt_succ hprev.1, ?_⟩
      simpa [List.getD_cons_succ] using hprev.2
    | none =>
      rw [h2] at h
      by_cases hc : s ∈ c
      · simp only [hc, if_true, Option.some.injEq] at h
        subst h
        exact ⟨by simp, by simpa [List.getD_cons_zero] using hc⟩
      · simp [hc] at h

/-- No name occurs anywhere when the last occurrence is `none`. -/
theorem lastOcc_none (cs : List (List String)) (s : String) :
    lastOcc cs s = none ↔ ∀ c ∈ cs, s ∉ c := by
  induction cs with
  | nil => simp [lastOcc]
  | cons c cs ih =>
    unfold lastOcc
    cases h2 : lastOcc cs s with
    | some j0 =>
      have hmem := lastOcc_mem cs s j0 h2
      have hc : cs.getD j0 [] ∈ cs := getD_mem_of_lt cs j0 hmem.1
      constructor
      · intro hfalse
        exact absurd hfalse (by simp)
      · intro hall
        exact absurd hmem.2 (hall (cs.getD j0 []) (List.mem_cons_of_mem c hc))
    | none =>
      constructor
      · intro hnone a ha
        rcases List.mem_cons.mp ha with rfl | ha2
        · intro hsc
          rw [if_pos hsc] at hnone
          exact Option.noConfusion hnone
        · exact ih.mp h2 a ha2
      · intro hall
        rw [if_neg (hall c (List.mem_cons_self c cs))]

/-- No occurrence lies strictly after the last occurrence. -/
theorem lastOcc_last (cs : List (List String)) (s : String) (j : Nat)
    (h : lastOcc cs s = some j) :
    ∀ k, j < k → k < cs.length → s ∉ cs.getD k [] := by
  induction cs generalizing j with
  | nil => simp
  | cons c cs ih =>
    intro k hjk hk
    unfold lastOcc at h
    cases h2 : lastOcc cs s with
    | some j0 =>
      rw [h2] at h
      simp only [Option.some.injEq] at h
      subst h
      cases k with
      | zero => omega
      | succ k0 =>
        simp only [List.getD_cons_succ]
        exact ih j0 h2 k0 (by omega) (by simpa using hk)
    | none =>
      rw [h2] at h
      by_cases hc : s ∈ c
      · simp only [hc, if_true, Option.some.injEq] at h
        cases k with
        | zero => omega
        | succ k0 =>
          simp only [List.getD_cons_succ]
          have hin : cs.getD k0 [] ∈ cs := getD_mem_of_lt cs k0 (by simpa using hk)
          exact (lastOcc_none cs s).mp h2 (cs.getD k0 []) hin
      · simp [hc] at h

/-- A successful lookup lands inside the cluster list. -/
theorem memberMap_mem (clusters : List (List String)) (s : String) (j : Nat)
    (h : memberMap clusters s = some j) :
    j < clusters.length ∧ s ∈ clusters.getD j [] :=
  lastOcc_mem clusters s j (by rw [← memberMap_eq_lastOcc]; exact h)

/-- Claim C6: the name-to-cluster-id mapping maps a name occurring in several
kept clusters to the id of the last cluster (in enumeration order) that
contains it, and every name occurring in any kept cluster is mapped to
exactly one cluster id. -/
theorem C6_memberMap_last (clusters : List (List String)) (s : String) :
    (∀ j, j < clusters.length → s ∈ clusters.getD j [] →
      (∀ k, j < k → k < clusters.length → s ∉ clusters.getD k []) →
      memberMap clusters s = some j) ∧
    ((∃ c ∈ clusters, s ∈ c) → ∃! j, memberMap clusters s = some j) := by
  constructor
  · intro j hj hmem hlast
    rw [memberMap_eq_lastOcc]
    cases hout : lastOcc clusters s with
    | none =>
      have hget : clusters.getD j [] ∈ clusters := getD_mem_of_lt clusters j hj
      exact absurd hmem ((lastOcc_none clusters s).mp hout (clusters.getD j []) hget)
    | some j' =>
      have hm := lastOcc_mem clusters s j' hout
      have hl := lastOcc_last clusters s j' hout
      rcases lt_trichotomy j j' with hlt | heq | hgt
      · exact absurd hm.2 (hlast j' hlt hm.1)
      · rw [heq]
      · exact absurd hmem (hl j hgt hj)
  · rintro ⟨c, hc, hsc⟩
    rw [show (∃! j, memberMap clusters s = some j)
          = (∃! j, lastOcc clusters s = some j) by rw [memberMap_eq_lastOcc]]
    cases hout : lastOcc clusters s with
    | none => exact absurd hsc ((lastOcc_none clusters s).mp hout c hc)
    | some j' =>
      exact ⟨j', rfl, fun y hy => (Option.some.inj hy).symm⟩

/-- Witness: `C6_memberMap_last` on two clusters both containing `a`: the
name maps to the later cluster, id 1. -/
theorem C6_memberMap_last_witness :
    memberMap [["a", "b"], ["a", "c"]] "a" = some 1 :=
  (C6_memberMap_last [["a", "b"], ["a", "c"]] "a").1 1 (by decide) (by decide)
    (by intro k h1 h2; simp only [List.length_cons, List.length_nil] at h2; omega)

/-- The mean of a nonempty list of rationals in `[0, 100]` is in `[0, 100]`. -/
theorem meanQ_bounds (xs : List ℚ) (hne : xs ≠ [])
    (h : ∀ x ∈ xs, 0 ≤ x ∧ x ≤ 100) : 0 ≤ meanQ xs ∧ meanQ xs ≤ 100 := by
  have hlen : 0 < (xs.length : ℚ) := by
    have := List.length_pos.mpr hne
    exact_mod_cast this
  have hsum0 : 0 ≤ xs.sum := List.sum_nonneg (fun x hx => (h x hx).1)
  have hsum1 : xs.sum ≤ xs.length * 100 := by
    have := List.sum_le_card_nsmul xs 100 (fun x hx => (h x hx).2)
    simpa [nsmul_eq_mul] using this
  unfold meanQ
  constructor
  · exact div_nonneg hsum0 (le_of_lt hlen)
  · rw [div_le_iff₀ hlen]
    linarith

/-- The sort used by `average_ANI_per_cluster` is ascending in the mean. -/
theorem sorted_by_avg (l : List (Nat × ℚ)) :
    List.Sorted (fun a b : Nat × ℚ => a.2 ≤ b.2)
      (List.insertionSort (fun a b => a.2 ≤ b.2) l) := by
  haveI : IsTotal (Nat × ℚ) (fun a b => a.2 ≤ b.2) := ⟨fun a b => le_total a.2 b.2⟩
  haveI : IsTrans (Nat × ℚ) (fun a b => a.2 ≤ b.2) := ⟨fun _ _ _ => le_trans⟩
  exact List.sorted_insertionSort (fun a b : Nat × ℚ => a.2 ≤ b.2) l

/-- Every summary row comes from the per-cluster aggregation of a cluster id
occurring among the joined rows. -/
theorem mem_average_ANI_per_cluster (joined : List (SimRow × Nat)) (q : Nat × ℚ)
    (hq : q ∈ average_ANI_per_cluster joined) :
    ∃ p ∈ joined, q = (p.2, meanQ (clusterGroup joined p.2)) := by
  unfold average_ANI_per_cluster at hq
  have hq2 := (List.Perm.mem_iff (List.perm_insertionSort _ _)).mp hq
  rcases List.mem_map.mp hq2 with ⟨c, hcmem, rfl⟩
  have hcmem2 : c ∈ joined.map (fun p => p.2) := List.mem_dedup.mp hcmem
  rcases List.mem_map.mp hcmem2 with ⟨p, hp, rfl⟩
  exact ⟨p, hp, rfl⟩

/-- Claim C4: the cluster summary (grouped by cluster id, identity averaged
per group) is sorted so that mean identity is non-decreasing, and if every
input identity is in `[0, 100]` then every mean identity is in `[0, 100]`. -/
theorem C4_summary_sorted_bounded (joined : List (SimRow × Nat)) :
    List.Sorted (fun a b : Nat × ℚ => a.2 ≤ b.2) (average_ANI_per_cluster joined) ∧
    ((∀ p ∈ joined, 0 ≤ p.1.ANI ∧ p.1.ANI ≤ 100) →
      ∀ q ∈ average_ANI_per_cluster joined, 0 ≤ q.2 ∧ q.2 ≤ 100) := by
  constructor
  · exact sorted_by_avg _
  · intro hb q hq
    rcases mem_average_ANI_per_cluster joined q hq with ⟨p, hp, rfl⟩
    have hmem : p.1.ANI ∈ clusterGroup joined p.2 := by
      unfold clusterGroup
      exact List.mem_map.mpr ⟨p, List.mem_filter.mpr ⟨hp, by simp⟩, rfl⟩
    have hne : clusterGroup joined p.2 ≠ [] := List.ne_nil_of_mem hmem
    have hall : ∀ x ∈ clusterGroup joined p.2, 0 ≤ x ∧ x ≤ 100 := by
      intro x hx
      unfold clusterGroup at hx
      rcases List.mem_map.mp hx with ⟨r, hr, rfl⟩
      exact hb r (List.mem_filter.mp hr).1
    exact meanQ_bounds _ hne hall

/-- Witness: `C4_summary_sorted_bounded` on one joined row with identity 97
in cluster 0: the single summary mean 97 lies in `[0, 100]`. -/
theorem C4_summary_sorted_bounded_witness :
    0 ≤ ((0, (97:ℚ)) : Nat × ℚ).2 ∧ ((0, (97:ℚ)) : Nat × ℚ).2 ≤ 100 :=
  (C4_summary_sorted_bounded [(⟨"a", "b", 97, 80, 60⟩, 0)]).2 (by norm_num) (0, 97)
    (by simp [average_ANI_per_cluster, clusterGroup, meanQ, List.insertionSort,
      List.orderedInsert, List.dedup])

/-- Every kept cluster has at least `min_cluster_size` members. -/
theorem iload_min_size (lines : List String) (n : Nat) :
    ∀ c ∈ iload lines n, n ≤ c.length := by
  intro c hc
  have := (List.mem_filter.mp hc).2
  simpa using this

/-- A row surviving `merge_cluster_ids` came from the input table and has
both of its endpoints mapped to its (shared) cluster id. -/
theorem merge_cluster_ids_mem (ani_data : List SimRow) (m : String → Option Nat)
    (p : SimRow × Nat) (hp : p ∈ merge_cluster_ids ani_data m) :
    p.1 ∈ ani_data ∧ m p.1.Ref_name = some p.2 ∧ m p.1.Query_name = some p.2 := by
  unfold merge_cluster_ids at hp
  rcases List.mem_filterMap.mp hp with ⟨r, hr, hmatch⟩
  cases hRef : m r.Ref_name with
  | none =>
    rw [hRef] at hmatch
    exact Option.noConfusion hmatch
  | some rc =>
    cases hQ : m r.Query_name with
    | none =>
      rw [hRef, hQ] at hmatch
      exact Option.noConfusion hmatch
    | some qc =>
      rw [hRef, hQ] at hmatch
      have hmatch2 : (if rc = qc then some (r, rc) else none) = some p := hmatch
      by_cases he : rc = qc
      · rw [if_pos he] at hmatch2
        obtain rfl := Option.some.inj hmatch2
        exact ⟨hr, by simpa using hRef, by rw [hQ, he]⟩
      · rw [if_neg he] at hmatch2
        exact Option.noConfusion hmatch2

/-- Claim C5: only lines with at least two tab-separated members are kept as
clusters, cluster ids are assigned by enumeration order over the kept
clusters, and every cluster id in the summary output belongs to a kept
cluster, hence one with at least two members. -/
theorem C5_cluster_ids (lines : List String) (rows : List SimRow) :
    (∀ c ∈ iload lines 2, 2 ≤ c.length) ∧
    ((iload lines 2).enum.map Prod.fst = List.range (iload lines 2).length) ∧
    (∀ j ∈ summaryClusterIds (merge_cluster_ids rows (memberMap (iload lines 2))),
      j < (iload lines 2).length ∧ 2 ≤ ((iload lines 2).getD j []).length) := by
  refine ⟨iload_min_size lines 2, List.enum_map_fst _, ?_⟩
  intro j hj
  unfold summaryClusterIds at hj
  rcases List.mem_map.mp hj with ⟨q, hq, rfl⟩
  rcases mem_average_ANI_per_cluster _ q hq with ⟨p, hp, rfl⟩
  have hmm := merge_cluster_ids_mem rows (memberMap (iload lines 2)) p hp
  have hj2 := memberMap_mem (iload lines 2) p.1.Ref_name p.2 hmm.2.1
  exact ⟨hj2.1, iload_min_size lines 2 _ (getD_mem_of_lt _ _ hj2.1)⟩

/-- Witness: `C5_cluster_ids` on one two-member line, one singleton line and
one intra-cluster similarity row: summary cluster id 0 names the kept
two-member cluster. -/
theorem C5_cluster_ids_witness :
    0 < (iload ["a\tb", "c"] 2).length ∧
      2 ≤ ((iload ["a\tb", "c"] 2).getD 0 []).length :=
  (C5_cluster_ids ["a\tb", "c"] [⟨"a", "b", 97, 80, 60⟩]).2.2 0 (by decide)

end VSkani
